import Mathlib

/-!
Shallow embedding of the `textnonce` crate (src/lib.rs) together with the
pieces of its dependencies that the library's behaviour rests on:

* the `rustc_serialize::base64` encoder (`Config`, `CharacterSet`, `Newline`,
  `ToBase64::to_base64`) as used by `TextNonce::sized_configured`;
* the `time::Timespec` structure (`sec : i64`, `nsec : i32`) whose first 12
  in-memory bytes the code copies into the nonce buffer via `transmute`;
* the entropy source (`OsRng`, with `thread_rng` fallback), modelled as a
  byte stream in an explicit environment.

Side effects (reading the clock, drawing entropy) are made explicit by
threading an `Env` value through the generator; the environment records how
many clock reads happened and how many entropy bytes were consumed, so that
"no work is done on a validation failure" is an observable statement.
-/

namespace Textnonce

/-! ### The base64 encoder of `rustc_serialize`, as configured by the crate -/

/-- Rust's `rustc_serialize::base64::CharacterSet`. -/
inductive CharacterSet where
  | Standard
  | UrlSafe
deriving DecidableEq, Repr

/-- Rust's `rustc_serialize::base64::Newline`. -/
inductive Newline where
  | LF
  | CRLF
deriving DecidableEq, Repr

/-- Rust's `rustc_serialize::base64::Config`. -/
structure Config where
  char_set : CharacterSet
  newline : Newline
  pad : Bool
  line_length : Option Nat
deriving DecidableEq, Repr

/-- The standard base64 character table (A-Z, a-z, 0-9, `+`, `/`). -/
def STANDARD_CHARS : List Char :=
  "ABCDEFGHIJKLMNOPQRSTUVWXYZabcdefghijklmnopqrstuvwxyz0123456789+/".data

/-- The URL-safe base64 character table (A-Z, a-z, 0-9, `-`, `_`). -/
def URLSAFE_CHARS : List Char :=
  "ABCDEFGHIJKLMNOPQRSTUVWXYZabcdefghijklmnopqrstuvwxyz0123456789-_".data

/-- Character table selected by a `CharacterSet`. -/
def charsOf : CharacterSet → List Char
  | CharacterSet.Standard => STANDARD_CHARS
  | CharacterSet.UrlSafe => URLSAFE_CHARS

/-- Encode one full 3-byte group into 4 base64 characters
(`n = b0 << 16 | b1 << 8 | b2`, then the four 6-bit slices of `n`). -/
def encodeGroup (tbl : List Char) (b0 b1 b2 : Nat) : List Char :=
  let n := (b0 % 256) * 65536 + (b1 % 256) * 256 + (b2 % 256)
  [tbl.getD (n / 262144 % 64) 'A', tbl.getD (n / 4096 % 64) 'A',
   tbl.getD (n / 64 % 64) 'A', tbl.getD (n % 64) 'A']

/-- Core base64 encoding: full 3-byte groups become 4 characters; a 2-byte
remainder becomes 3 characters (plus `=` when padding is requested); a 1-byte
remainder becomes 2 characters (plus `==` when padding is requested). -/
def encodeCore (tbl : List Char) (pad : Bool) : List Nat → List Char
  | b0 :: b1 :: b2 :: rest => encodeGroup tbl b0 b1 b2 ++ encodeCore tbl pad rest
  | [b0, b1] =>
      let n := (b0 % 256) * 65536 + (b1 % 256) * 256
      [tbl.getD (n / 262144 % 64) 'A', tbl.getD (n / 4096 % 64) 'A',
       tbl.getD (n / 64 % 64) 'A'] ++ (if pad then ['='] else [])
  | [b0] =>
      let n := (b0 % 256) * 65536
      [tbl.getD (n / 262144 % 64) 'A', tbl.getD (n / 4096 % 64) 'A'] ++
        (if pad then ['=', '='] else [])
  | [] => []

/-- The line-break string chosen by `Newline`. -/
def newlineChars : Newline → List Char
  | Newline.LF => ['\n']
  | Newline.CRLF => ['\r', '\n']

/-- Insert a line break after every `n` characters (only used when the
configuration carries `line_length = some n`). -/
def insertLineBreaks (nl : List Char) (n : Nat) (cs : List Char) : List Char :=
  if n = 0 then cs
  else if cs.length ≤ n then cs
  else cs.take n ++ nl ++ insertLineBreaks nl n (cs.drop n)
termination_by cs.length
decreasing_by
  simp only [List.length_drop]
  omega

/-- Model of `to_base64` from `rustc_serialize` on a byte sequence, for a given `Config`. -/
def to_base64 (bytes : List Nat) (config : Config) : String :=
  let core := encodeCore (charsOf config.char_set) config.pad bytes
  match config.line_length with
  | none => String.mk core
  | some n => String.mk (insertLineBreaks (newlineChars config.newline) n core)

/-! ### Time, platform and the effectful environment -/

/-- Rust's `time::Timespec` (`sec : i64`, `nsec : i32`). -/
structure Timespec where
  sec : Int
  nsec : Int
deriving DecidableEq, Repr

/-- The only platform trait the code's `transmute` depends on: byte order. -/
structure Platform where
  littleEndian : Bool
deriving DecidableEq, Repr

/-- Little-endian byte expansion of a natural number to `w` bytes (least significant first). -/
def natLEBytes : Nat → Nat → List Nat
  | 0, _ => []
  | w + 1, x => x % 256 :: natLEBytes w (x / 256)

/-- In-memory bytes of a `w`-byte signed integer field on platform `p`:
two's-complement value, in the platform's native byte order. -/
def intFieldBytes (p : Platform) (w : Nat) (x : Int) : List Nat :=
  let le := natLEBytes w (x.emod (2 ^ (8 * w))).toNat
  if p.littleEndian then le else le.reverse

/-- The first 12 in-memory bytes of a `Timespec` on platform `p`: the `sec`
field (8 bytes) followed by the `nsec` field (4 bytes), each in native byte
order.  This is what `ptr::copy_nonoverlapping(transmute(&time), raw, 12)`
copies. -/
def timespecBytes (p : Platform) (t : Timespec) : List Nat :=
  intFieldBytes p 8 t.sec ++ intFieldBytes p 4 t.nsec

/-- The outside world as the generator sees it: the platform, what the clock
currently reads, and the entropy stream (OS entropy, or the `thread_rng`
fallback — either way an unbounded byte source).  `rngUsed` and `clockReads`
record the side effects performed so far. -/
structure Env where
  platform : Platform
  time : Timespec
  rng : Nat → Nat
  rngUsed : Nat
  clockReads : Nat

/-- Model of `time::get_time()`: read the clock (recorded in `clockReads`). -/
def getTime (env : Env) : Timespec × Env :=
  (env.time, { env with clockReads := env.clockReads + 1 })

/-- Model of `fill_bytes` on the slice `raw[12..bytelength]`: draw `n` bytes from the
entropy stream, advancing the stream cursor. -/
def fillRandom (n : Nat) (env : Env) : List Nat × Env :=
  ((List.range n).map (fun i => env.rng (env.rngUsed + i) % 256),
   { env with rngUsed := env.rngUsed + n })

/-! ### `TextNonce` and its constructors -/

/-- The nonce type: `pub struct TextNonce(pub String)` with `PartialEq` by string content. -/
structure TextNonce where
  text : String
deriving DecidableEq, Repr

/-- The raw byte buffer a successful generation encodes: 12 bytes copied from
the in-memory `Timespec`, followed by `length / 4 * 3 - 12` entropy bytes. -/
def nonceRaw (length : Nat) (env : Env) : List Nat :=
  timespecBytes env.platform env.time ++ (fillRandom (length / 4 * 3 - 12) env).1

/-- Model of `TextNonce::sized_configured`.  Returns the result together with the
environment after the call, so that the side effects are visible. -/
def sized_configured (length : Nat) (config : Config) (env : Env) :
    Except String TextNonce × Env :=
  if length < 16 then (Except.error "length must be >= 16", env)
  else if length % 4 ≠ 0 then (Except.error "length must be divisible by 4", env)
  else
    let bytelength := length / 4 * 3
    let te := getTime env
    let re := fillRandom (bytelength - 12) te.2
    let raw := timespecBytes te.2.platform te.1 ++ re.1
    (Except.ok ⟨to_base64 raw config⟩, re.2)

/-- Model of `TextNonce::sized`: standard alphabet, LF, no padding, no line length. -/
def sized (length : Nat) (env : Env) : Except String TextNonce × Env :=
  sized_configured length ⟨CharacterSet.Standard, Newline.LF, false, none⟩ env

/-- Model of `TextNonce::sized_urlsafe`: URL-safe alphabet, LF, no padding, no line
length. -/
def sized_urlsafe (length : Nat) (env : Env) : Except String TextNonce × Env :=
  sized_configured length ⟨CharacterSet.UrlSafe, Newline.LF, false, none⟩ env

/-- Model of `TextNonce::new()`: `sized(32).unwrap()`.  The `unwrap` panic is modelled
as `none`. -/
def new (env : Env) : Option (TextNonce × Env) :=
  match sized 32 env with
  | (Except.ok t, e) => some (t, e)
  | (Except.error _, _) => none

/-- Model of `TextNonce::into_string`. -/
def into_string : TextNonce → String
  | ⟨s⟩ => s

/-! ### The error taxonomy of the spec, mapped onto the code's messages -/

/-- The spec's `ConfigError` taxonomy. -/
inductive ConfigError where
  | TooShort
  | NotAligned
deriving DecidableEq, Repr

/-- The error string the code actually returns for each `ConfigError`. -/
def ConfigError.message : ConfigError → String
  | ConfigError.TooShort => "length must be >= 16"
  | ConfigError.NotAligned => "length must be divisible by 4"

/-! ### Membership predicates for the two alphabets (the spec's wording) -/

/-- Membership of a character in the configured alphabet as the spec words it:
digits, letters, and `+`/`/` (standard) or `-`/`_` (URL-safe). -/
def isB64Char : CharacterSet → Char → Bool
  | CharacterSet.Standard, c => c.isDigit || c.isAlpha || c == '+' || c == '/'
  | CharacterSet.UrlSafe, c => c.isDigit || c.isAlpha || c == '-' || c == '_'

/-- Layout that claim C3 (and §3 of the spec) asserts for the 12-byte time
prefix, written from the spec's words: 4 bytes little-endian sub-second
nanoseconds first, then 8 bytes little-endian signed whole seconds,
independent of platform. -/
def specClaimedTimeLayout (sec nsec : Int) : List Nat :=
  natLEBytes 4 (nsec.emod (2 ^ 32)).toNat ++ natLEBytes 8 (sec.emod (2 ^ 64)).toNat

/-- The environment after a successful generation: one clock read, and
`length / 4 * 3 - 12` entropy bytes consumed. -/
def envAfter (length : Nat) (env : Env) : Env :=
  { env with rngUsed := env.rngUsed + (length / 4 * 3 - 12),
             clockReads := env.clockReads + 1 }

/-- A concrete environment used to instantiate universally quantified
theorems: little-endian platform, clock at the epoch, all-zero entropy. -/
def env0 : Env :=
  { platform := { littleEndian := true }, time := { sec := 0, nsec := 0 },
    rng := fun _ => 0, rngUsed := 0, clockReads := 0 }

/-- A concrete little-endian environment whose clock reads 0 seconds and
1 nanosecond, used to exhibit the actual byte layout of the time prefix. -/
def env1ns : Env :=
  { platform := { littleEndian := true }, time := { sec := 0, nsec := 1 },
    rng := fun _ => 0, rngUsed := 0, clockReads := 0 }

/-! ### Helper lemmas -/

theorem natLEBytes_length (w x : Nat) : (natLEBytes w x).length = w := by
  induction w generalizing x with
  | zero => simp [natLEBytes]
  | succ w ih => simp [natLEBytes, ih]

theorem intFieldBytes_length (p : Platform) (w : Nat) (x : Int) :
    (intFieldBytes p w x).length = w := by
  unfold intFieldBytes
  split <;> simp [natLEBytes_length]

theorem timespecBytes_length (p : Platform) (t : Timespec) :
    (timespecBytes p t).length = 12 := by
  simp [timespecBytes, intFieldBytes_length]

theorem fillRandom_fst_length (n : Nat) (env : Env) :
    ((fillRandom n env).1).length = n := by
  simp [fillRandom]

theorem nonceRaw_length (length : Nat) (env : Env) (h16 : 16 ≤ length) :
    (nonceRaw length env).length = length / 4 * 3 := by
  have h12 : 12 ≤ length / 4 * 3 := by omega
  simp only [nonceRaw, List.length_append, timespecBytes_length,
    fillRandom_fst_length]
  omega

theorem encodeCore_length (tbl : List Char) (pad : Bool) (bytes : List Nat)
    (h : bytes.length % 3 = 0) :
    (encodeCore tbl pad bytes).length = bytes.length / 3 * 4 := by
  induction bytes using encodeCore.induct tbl pad with
  | case1 b0 b1 b2 rest ih =>
      have hrest : rest.length % 3 = 0 := by
        simp only [List.length_cons] at h; omega
      simp only [encodeCore, List.length_append, encodeGroup, List.length_cons,
        List.length_nil, ih hrest]
      omega
  | case2 b0 b1 => simp only [List.length_cons, List.length_nil] at h; omega
  | case3 b0 => simp only [List.length_cons, List.length_nil] at h; omega
  | case4 => simp [encodeCore]

theorem mem_encodeCore (tbl : List Char) (pad : Bool) (bytes : List Nat)
    (h : bytes.length % 3 = 0) (c : Char) (hc : c ∈ encodeCore tbl pad bytes) :
    ∃ j, j < 64 ∧ c = tbl.getD j 'A' := by
  induction bytes using encodeCore.induct tbl pad with
  | case1 b0 b1 b2 rest ih =>
      have hrest : rest.length % 3 = 0 := by
        simp only [List.length_cons] at h; omega
      simp only [encodeCore, List.mem_append, encodeGroup] at hc
      rcases hc with hc | hc
      · simp only [List.mem_cons, List.not_mem_nil, or_false] at hc
        rcases hc with rfl | rfl | rfl | rfl
        all_goals exact ⟨_, Nat.mod_lt _ (by omega), rfl⟩
      · exact ih hrest hc
  | case2 b0 b1 => simp only [List.length_cons, List.length_nil] at h; omega
  | case3 b0 => simp only [List.length_cons, List.length_nil] at h; omega
  | case4 => simp [encodeCore] at hc

theorem charsOf_ok (cs : CharacterSet) :
    ∀ j, j < 64 → isB64Char cs ((charsOf cs).getD j 'A') = true := by
  cases cs <;> decide

theorem isB64Char_excludes (cs : CharacterSet) (c : Char)
    (h : isB64Char cs c = true) : c ≠ '=' ∧ c ≠ '\n' ∧ c ≠ '\r' := by
  refine ⟨?_, ?_, ?_⟩ <;> rintro rfl <;> cases cs <;> simp [isB64Char] at h

theorem to_base64_none_data (bytes : List Nat) (cs : CharacterSet)
    (nl : Newline) (pad : Bool) :
    (to_base64 bytes ⟨cs, nl, pad, none⟩).data = encodeCore (charsOf cs) pad bytes := rfl

theorem to_base64_none_length (bytes : List Nat) (cs : CharacterSet)
    (nl : Newline) (pad : Bool) (h : bytes.length % 3 = 0) :
    (to_base64 bytes ⟨cs, nl, pad, none⟩).length = bytes.length / 3 * 4 := by
  have hd : (to_base64 bytes ⟨cs, nl, pad, none⟩).data = encodeCore (charsOf cs) pad bytes := rfl
  rw [String.length, hd]
  exact encodeCore_length _ _ _ h

theorem mem_to_base64_none (bytes : List Nat) (cs : CharacterSet)
    (nl : Newline) (pad : Bool) (h : bytes.length % 3 = 0) (c : Char)
    (hc : c ∈ (to_base64 bytes ⟨cs, nl, pad, none⟩).data) :
    isB64Char cs c = true := by
  rw [to_base64_none_data] at hc
  obtain ⟨j, hj, rfl⟩ := mem_encodeCore (charsOf cs) pad bytes h c hc
  exact charsOf_ok cs j hj

theorem sized_configured_short (l : Nat) (cfg : Config) (env : Env)
    (h : l < 16) :
    sized_configured l cfg env = (Except.error ConfigError.TooShort.message, env) := by
  simp [sized_configured, h, ConfigError.message]

theorem sized_configured_notAligned (l : Nat) (cfg : Config) (env : Env)
    (h16 : 16 ≤ l) (h4 : l % 4 ≠ 0) :
    sized_configured l cfg env = (Except.error ConfigError.NotAligned.message, env) := by
  have h1 : ¬ l < 16 := by omega
  simp [sized_configured, h1, h4, ConfigError.message]

theorem sized_configured_valid (l : Nat) (cfg : Config) (env : Env)
    (h16 : 16 ≤ l) (h4 : l % 4 = 0) :
    sized_configured l cfg env =
      (Except.ok ⟨to_base64 (nonceRaw l env) cfg⟩, envAfter l env) := by
  have h1 : ¬ l < 16 := by omega
  have h2 : ¬ l % 4 ≠ 0 := fun hn => hn h4
  rw [sized_configured, if_neg h1, if_neg h2]
  rfl

theorem nonceRaw_mod3 (l : Nat) (env : Env) (h16 : 16 ≤ l) :
    (nonceRaw l env).length % 3 = 0 := by
  rw [nonceRaw_length l env h16]
  omega

theorem nonce_text_length (l : Nat) (env : Env) (cs : CharacterSet)
    (nl : Newline) (pad : Bool) (h16 : 16 ≤ l) (h4 : l % 4 = 0) :
    (to_base64 (nonceRaw l env) ⟨cs, nl, pad, none⟩).length = l := by
  rw [to_base64_none_length _ _ _ _ (nonceRaw_mod3 l env h16),
    nonceRaw_length l env h16]
  omega

/-! ### Serde support (`impl Serialize` / `impl Deserialize` for `TextNonce`) -/

/-- Values of the serialization data model that the `TextNonce` visitor can
receive: a newtype struct carrying one string field, or a sequence of string
fields. -/
inductive SerdeValue where
  | newtypeStruct (name : String) (field : String)
  | seq (fields : List String)
deriving DecidableEq, Repr

/-- Model of `impl Serialize for TextNonce`: `serialize_newtype_struct
("TextNonce", &self.0)` — a single string field. -/
def TextNonce.serialize (t : TextNonce) : SerdeValue :=
  SerdeValue.newtypeStruct "TextNonce" t.text

/-- Model of `impl Deserialize for TextNonce`: the visitor accepts a newtype
struct (taking its string field) or a sequence holding exactly one string. -/
def TextNonce.deserialize : SerdeValue → Except String TextNonce
  | SerdeValue.newtypeStruct _ s => Except.ok ⟨s⟩
  | SerdeValue.seq [s] => Except.ok ⟨s⟩
  | SerdeValue.seq [] => Except.error "end of stream"
  | SerdeValue.seq (_ :: _ :: _) => Except.error "expected end of sequence"

/-! ### The claims -/

/-- Claim C1: for every length that is at least 16 and divisible by 4,
`sized`, `sized_urlsafe` and `sized_configured` (over the spec's
configuration space: either alphabet, either newline flavour, padding on or
off, no line length) succeed, and the encoded text of the returned nonce has
exactly `length` characters. -/
theorem claim_C1 (l : Nat) (env : Env) (cs : CharacterSet) (nl : Newline)
    (pad : Bool) (h16 : 16 ≤ l) (h4 : l % 4 = 0) :
    (∃ t e, sized l env = (Except.ok t, e) ∧ t.text.length = l) ∧
    (∃ t e, sized_urlsafe l env = (Except.ok t, e) ∧ t.text.length = l) ∧
    (∃ t e, sized_configured l ⟨cs, nl, pad, none⟩ env = (Except.ok t, e) ∧
      t.text.length = l) := by
  refine ⟨⟨_, _, sized_configured_valid l _ env h16 h4, ?_⟩,
    ⟨_, _, sized_configured_valid l _ env h16 h4, ?_⟩,
    ⟨_, _, sized_configured_valid l _ env h16 h4, ?_⟩⟩ <;>
    exact nonce_text_length l env _ _ _ h16 h4

/-- Witness for C1 at `length = 16`. -/
theorem claim_C1_witness :
    16 ≤ 16 ∧ 16 % 4 = 0 ∧
    (∃ t e, sized 16 env0 = (Except.ok t, e) ∧ t.text.length = 16) :=
  ⟨by decide, by decide,
   (claim_C1 16 env0 CharacterSet.Standard Newline.LF false (by decide)
     (by decide)).1⟩

/-- Claim C2: lengths below 16 fail with the `TooShort` error, lengths that
are at least 16 but not a multiple of 4 fail with the `NotAligned` error, and
the short check runs first, so 15 (violating both) gives `TooShort`, 17 gives
`NotAligned`, and 12 gives `TooShort`. -/
theorem claim_C2 (l : Nat) (cfg : Config) (env : Env) :
    (l < 16 →
      sized_configured l cfg env = (Except.error ConfigError.TooShort.message, env)) ∧
    (16 ≤ l → l % 4 ≠ 0 →
      sized_configured l cfg env = (Except.error ConfigError.NotAligned.message, env)) ∧
    sized 15 env = (Except.error ConfigError.TooShort.message, env) ∧
    sized 17 env = (Except.error ConfigError.NotAligned.message, env) ∧
    sized 12 env = (Except.error ConfigError.TooShort.message, env) :=
  ⟨fun h => sized_configured_short l cfg env h,
   fun h16 h4 => sized_configured_notAligned l cfg env h16 h4,
   sized_configured_short 15 _ env (by omega),
   sized_configured_notAligned 17 _ env (by omega) (by omega),
   sized_configured_short 12 _ env (by omega)⟩

/-- Witness for C2: the two general clauses instantiated at 15 and 17. -/
theorem claim_C2_witness :
    sized_configured 15 ⟨CharacterSet.Standard, Newline.LF, false, none⟩ env0 =
      (Except.error ConfigError.TooShort.message, env0) ∧
    sized_configured 17 ⟨CharacterSet.Standard, Newline.LF, false, none⟩ env0 =
      (Except.error ConfigError.NotAligned.message, env0) :=
  ⟨(claim_C2 15 ⟨CharacterSet.Standard, Newline.LF, false, none⟩ env0).1
     (by decide),
   (claim_C2 17 ⟨CharacterSet.Standard, Newline.LF, false, none⟩ env0).2.1
     (by decide) (by decide)⟩

/-- Counterexample to C3 as stated: on a little-endian platform with the
clock reading 0 seconds and 1 nanosecond, the generation at length 16
succeeds, yet the 12-byte time prefix of the raw buffer is not the
"nanoseconds little-endian at [0,4), then seconds little-endian at [4,12)"
layout the claim asserts — the code copies the in-memory `Timespec`, which
puts the seconds field first. -/
theorem claim_C3_counterexample :
    (sized_configured 16 ⟨CharacterSet.Standard, Newline.LF, false, none⟩ env1ns).1 =
      Except.ok ⟨to_base64 (nonceRaw 16 env1ns)
        ⟨CharacterSet.Standard, Newline.LF, false, none⟩⟩ ∧
    (nonceRaw 16 env1ns).take 12 ≠
      specClaimedTimeLayout env1ns.time.sec env1ns.time.nsec := by
  constructor
  · rw [sized_configured_valid 16 _ env1ns (by omega) (by omega)]
  · decide

/-- Claim C3, amended: in every successful generation the raw buffer starts
with the first 12 in-memory bytes of the `Timespec` — the whole seconds as a
signed 64-bit field at bytes [0,8), then the sub-second nanoseconds as a
32-bit field at bytes [8,12), each in the platform's native byte order
(platform-dependent, not fixed little-endian). -/
theorem claim_C3 (l : Nat) (cfg : Config) (env : Env)
    (h16 : 16 ≤ l) (h4 : l % 4 = 0) :
    (sized_configured l cfg env).1 = Except.ok ⟨to_base64 (nonceRaw l env) cfg⟩ ∧
    (nonceRaw l env).take 8 = intFieldBytes env.platform 8 env.time.sec ∧
    ((nonceRaw l env).drop 8).take 4 = intFieldBytes env.platform 4 env.time.nsec := by
  refine ⟨by rw [sized_configured_valid l cfg env h16 h4], ?_, ?_⟩
  · rw [nonceRaw, timespecBytes, List.append_assoc]
    have ht := List.take_left (intFieldBytes env.platform 8 env.time.sec)
      (intFieldBytes env.platform 4 env.time.nsec ++ (fillRandom (l / 4 * 3 - 12) env).1)
    rwa [intFieldBytes_length] at ht
  · rw [nonceRaw, timespecBytes, List.append_assoc]
    have hd := List.drop_left (intFieldBytes env.platform 8 env.time.sec)
      (intFieldBytes env.platform 4 env.time.nsec ++ (fillRandom (l / 4 * 3 - 12) env).1)
    rw [intFieldBytes_length] at hd
    rw [hd]
    have ht := List.take_left (intFieldBytes env.platform 4 env.time.nsec)
      ((fillRandom (l / 4 * 3 - 12) env).1)
    rwa [intFieldBytes_length] at ht

/-- Witness for the amended C3 at `length = 16` on the little-endian
environment with 1 nanosecond on the clock. -/
theorem claim_C3_witness :
    16 ≤ 16 ∧ 16 % 4 = 0 ∧
    (nonceRaw 16 env1ns).take 8 = intFieldBytes env1ns.platform 8 env1ns.time.sec :=
  ⟨by decide, by decide,
   (claim_C3 16 ⟨CharacterSet.Standard, Newline.LF, false, none⟩ env1ns
     (by decide) (by decide)).2.1⟩

/-- Claim C4: `new` never panics, returns a nonce of exactly 32 characters,
and is exactly `sized 32` (standard alphabet) with the `Ok` unwrapped. -/
theorem claim_C4 (env : Env) :
    ∃ t e, sized 32 env = (Except.ok t, e) ∧ new env = some (t, e) ∧
      t.text.length = 32 := by
  have hv := sized_configured_valid 32
    ⟨CharacterSet.Standard, Newline.LF, false, none⟩ env (by omega) (by omega)
  refine ⟨_, _, hv, ?_, nonce_text_length 32 env _ _ _ (by omega) (by omega)⟩
  unfold new
  rw [show sized 32 env = (Except.ok ⟨to_base64 (nonceRaw 32 env)
    ⟨CharacterSet.Standard, Newline.LF, false, none⟩⟩, envAfter 32 env) from hv]

/-- Claim C5: every character of a generated nonce (either alphabet, padding
requested or not, no line length) is in the configured alphabet — a digit, a
letter, or the two symbol characters of the chosen variant — and is never a
padding character or a newline. -/
theorem claim_C5 (l : Nat) (env : Env) (cs : CharacterSet) (nl : Newline)
    (pad : Bool) (h16 : 16 ≤ l) (h4 : l % 4 = 0) :
    (sized_configured l ⟨cs, nl, pad, none⟩ env).1 =
      Except.ok ⟨to_base64 (nonceRaw l env) ⟨cs, nl, pad, none⟩⟩ ∧
    ∀ c ∈ (to_base64 (nonceRaw l env) ⟨cs, nl, pad, none⟩).data,
      isB64Char cs c = true ∧ c ≠ '=' ∧ c ≠ '\n' ∧ c ≠ '\r' := by
  refine ⟨by rw [sized_configured_valid l _ env h16 h4], fun c hc => ?_⟩
  have hb := mem_to_base64_none _ cs nl pad (nonceRaw_mod3 l env h16) c hc
  exact ⟨hb, isB64Char_excludes cs c hb⟩

/-- Witness for C5 at `length = 16`, checking the first character. -/
theorem claim_C5_witness :
    16 ≤ 16 ∧ 16 % 4 = 0 ∧
    (isB64Char CharacterSet.Standard 'A' = true ∧ 'A' ≠ '=' ∧
      'A' ≠ '\n' ∧ 'A' ≠ '\r') :=
  ⟨by decide, by decide,
   (claim_C5 16 env0 CharacterSet.Standard Newline.LF false (by decide)
     (by decide)).2 'A' (by decide)⟩

/-- Claim C6: generation is deterministic in its inputs — two runs with the
same length and configuration, on the same platform, reading the same time
and drawing the same random bytes, produce identical results (in particular
identical text). -/
theorem claim_C6 (l : Nat) (cfg : Config) (e1 e2 : Env)
    (hp : e1.platform = e2.platform) (ht : e1.time = e2.time)
    (hr : ∀ i, i < l / 4 * 3 - 12 →
      e1.rng (e1.rngUsed + i) = e2.rng (e2.rngUsed + i)) :
    (sized_configured l cfg e1).1 = (sized_configured l cfg e2).1 := by
  by_cases h16 : l < 16
  · rw [sized_configured_short l cfg e1 h16, sized_configured_short l cfg e2 h16]
  · by_cases h4 : l % 4 = 0
    · rw [sized_configured_valid l cfg e1 (by omega) h4,
        sized_configured_valid l cfg e2 (by omega) h4]
      have h1 : timespecBytes e1.platform e1.time = timespecBytes e2.platform e2.time := by
        rw [hp, ht]
      have h2 : (fillRandom (l / 4 * 3 - 12) e1).1 = (fillRandom (l / 4 * 3 - 12) e2).1 := by
        simp only [fillRandom]
        refine List.map_congr_left ?_
        intro i hi
        rw [hr i (List.mem_range.mp hi)]
      simp only [nonceRaw, h1, h2]
    · rw [sized_configured_notAligned l cfg e1 (by omega) h4,
        sized_configured_notAligned l cfg e2 (by omega) h4]

/-- Witness for C6: two environments differing only in a field the
generation does not depend on (the clock-read counter) give the same result. -/
theorem claim_C6_witness :
    (sized_configured 16 ⟨CharacterSet.Standard, Newline.LF, false, none⟩ env0).1 =
    (sized_configured 16 ⟨CharacterSet.Standard, Newline.LF, false, none⟩
      { env0 with clockReads := 5 }).1 :=
  claim_C6 16 ⟨CharacterSet.Standard, Newline.LF, false, none⟩ env0
    { env0 with clockReads := 5 } rfl rfl (fun _ _ => rfl)

/-- Claim C7: `into_string` composed with the raw-string constructor
reproduces an equal value, and equality of nonces is by string content. -/
theorem claim_C7 (v w : TextNonce) :
    TextNonce.mk (into_string v) = v ∧ (v = w ↔ v.text = w.text) := by
  cases v
  cases w
  exact ⟨rfl, by simp⟩

/-- Claim C8: on a validation failure the generator returns the error with
the environment unchanged — the clock was not read and no entropy was
consumed. -/
theorem claim_C8 (l : Nat) (cfg : Config) (env : Env)
    (h : l < 16 ∨ l % 4 ≠ 0) :
    (∃ msg, sized_configured l cfg env = (Except.error msg, env)) ∧
    (sized_configured l cfg env).2.clockReads = env.clockReads ∧
    (sized_configured l cfg env).2.rngUsed = env.rngUsed := by
  have heq : ∃ msg, sized_configured l cfg env = (Except.error msg, env) := by
    rcases h with h | h
    · exact ⟨_, sized_configured_short l cfg env h⟩
    · by_cases h16 : l < 16
      · exact ⟨_, sized_configured_short l cfg env h16⟩
      · exact ⟨_, sized_configured_notAligned l cfg env (by omega) h⟩
  obtain ⟨msg, hmsg⟩ := heq
  exact ⟨⟨msg, hmsg⟩, by rw [hmsg], by rw [hmsg]⟩

/-- Witness for C8 at `length = 15`. -/
theorem claim_C8_witness :
    (15 < 16 ∨ 15 % 4 ≠ 0) ∧
    ((∃ msg, sized_configured 15 ⟨CharacterSet.Standard, Newline.LF, false, none⟩ env0 =
        (Except.error msg, env0)) ∧
     (sized_configured 15 ⟨CharacterSet.Standard, Newline.LF, false, none⟩ env0).2.clockReads =
        env0.clockReads ∧
     (sized_configured 15 ⟨CharacterSet.Standard, Newline.LF, false, none⟩ env0).2.rngUsed =
        env0.rngUsed) :=
  ⟨Or.inl (by decide),
   claim_C8 15 ⟨CharacterSet.Standard, Newline.LF, false, none⟩ env0
     (Or.inl (by decide))⟩

/-- Claim C9: serializing a nonce yields a single string field, and
deserializing it back yields a value equal to the original. -/
theorem claim_C9 (v : TextNonce) :
    TextNonce.serialize v = SerdeValue.newtypeStruct "TextNonce" v.text ∧
    TextNonce.deserialize (TextNonce.serialize v) = Except.ok v := by
  cases v
  exact ⟨rfl, rfl⟩

/-- Claim C10: for every valid length the raw byte count `(length / 4) * 3`
is a multiple of 3, so the encoding has exactly `length` characters and never
produces a padding character, whether or not padding is requested. -/
theorem claim_C10 (l : Nat) (env : Env) (cs : CharacterSet) (nl : Newline)
    (pad : Bool) (h16 : 16 ≤ l) (h4 : l % 4 = 0) :
    (l / 4 * 3) % 3 = 0 ∧
    (sized_configured l ⟨cs, nl, pad, none⟩ env).1 =
      Except.ok ⟨to_base64 (nonceRaw l env) ⟨cs, nl, pad, none⟩⟩ ∧
    (to_base64 (nonceRaw l env) ⟨cs, nl, pad, none⟩).length = l ∧
    '=' ∉ (to_base64 (nonceRaw l env) ⟨cs, nl, pad, none⟩).data := by
  refine ⟨by omega, by rw [sized_configured_valid l _ env h16 h4],
    nonce_text_length l env cs nl pad h16 h4, fun hc => ?_⟩
  have hb := mem_to_base64_none _ cs nl pad (nonceRaw_mod3 l env h16) '=' hc
  exact (isB64Char_excludes cs '=' hb).1 rfl

/-- Witness for C10 at `length = 16` with padding requested. -/
theorem claim_C10_witness :
    (16 / 4 * 3) % 3 = 0 ∧
    (to_base64 (nonceRaw 16 env0)
      ⟨CharacterSet.Standard, Newline.LF, true, none⟩).length = 16 :=
  ⟨(claim_C10 16 env0 CharacterSet.Standard Newline.LF true (by decide)
      (by decide)).1,
   (claim_C10 16 env0 CharacterSet.Standard Newline.LF true (by decide)
      (by decide)).2.2.1⟩

end Textnonce
